import Mathlib

set_option maxHeartbeats 1000000
set_option maxRecDepth 100000

/-!
Verification development for the SoundStream-style neural audio codec in
`encoders/encoders.py`.  The convolutional stacks are shallowly embedded over
rational-valued channel lists: a 1-D tensor is a list of channels, each channel
a list of time samples.  Learned weights and biases are parameters of the
embedded modules; the pointwise ELU nonlinearity is likewise a parameter
(`phi`), since every property proved here (shapes, lengths, causality) is
independent of the particular pointwise function applied.  Integer length
bookkeeping (`features_lengths` of the discriminators) is embedded directly
over `Nat`/`Int`, with `torch.div(-, -, rounding_mode="floor")` translated as
floor division.  PyTorch raises a runtime error when a convolution would
produce a non-positive output length; the embedding totalises those degenerate
sizes with an empty output and the theorems note where that matters.
-/

namespace AudioDiffusion

/-- Output time length of a PyTorch `nn.Conv1d` with kernel `k`, stride `s`,
symmetric padding `p` and dilation 1 on an input of length `L`:
`floor ((L + 2p - k) / s) + 1`, and `0` when the padded input is shorter than
the kernel (where PyTorch raises; see the file docstring). -/
def convLen (k s p L : ℕ) : ℕ :=
  if L + 2 * p < k then 0 else (L + 2 * p - k) / s + 1

namespace WaveDiscriminatorBlock

/-- Translated from `WaveDiscriminatorBlock.features_lengths`
(src/encoders/encoders.py lines 370-379).  The `torch.div` calls with
`rounding_mode="floor"` on non-negative integer lengths are `Nat` division. -/
def features_lengths (L : ℕ) : List ℕ :=
  [L,
   (L + 3) / 4,
   (L + 15) / 16,
   (L + 63) / 64,
   (L + 255) / 256,
   (L + 255) / 256,
   (L + 255) / 256]

/-- Per-sub-discriminator length sequence as the specification words it:
the input length followed by floor-divisions of shifted lengths, written with
a genuine floor of rational division. -/
def spec_lengths (L : ℕ) : List ℕ :=
  [L,
   ⌊((L : ℚ) + 3) / 4⌋₊,
   ⌊((L : ℚ) + 15) / 16⌋₊,
   ⌊((L : ℚ) + 63) / 64⌋₊,
   ⌊((L : ℚ) + 255) / 256⌋₊,
   ⌊((L : ℚ) + 255) / 256⌋₊,
   ⌊((L : ℚ) + 255) / 256⌋₊]

/-- Time lengths of the seven feature maps produced by
`WaveDiscriminatorBlock.forward` (src lines 381-386), computed layer by layer
from the layer configurations at src lines 335-368:
`ReflectionPad1d(7)` + `Conv1d(k=15, s=1, p=0)`, then four
`Conv1d(k=41, s=4, p=20)`, then `Conv1d(k=5, s=1, p=2)`, then
`Conv1d(k=3, s=1, p=1)`.  `weight_norm` and `LeakyReLU` do not change
lengths; grouping does not affect the length formula. -/
def forward_lengths (L : ℕ) : List ℕ :=
  let l0 := convLen 15 1 0 (L + 2 * 7)
  let l1 := convLen 41 4 20 l0
  let l2 := convLen 41 4 20 l1
  let l3 := convLen 41 4 20 l2
  let l4 := convLen 41 4 20 l3
  let l5 := convLen 5 1 2 l4
  let l6 := convLen 3 1 1 l5
  [l0, l1, l2, l3, l4, l5, l6]

end WaveDiscriminatorBlock

namespace WaveDiscriminator

/-- Translated from `WaveDiscriminator.features_lengths`
(src/encoders/encoders.py lines 403-406).  The Python dict comprehension keys
the i-th scale by the string `disc_` followed by `downsampling_factor ** i`;
we model each comprehension entry as the pair of that key number and the
value `WaveDiscriminatorBlock.features_lengths(lengths // 2 ** i)` — note the
source divides by `2 ** i`, not by `downsampling_factor ** i`. -/
def features_lengths (num_D downsampling_factor L : ℕ) : List (ℕ × List ℕ) :=
  (List.range num_D).map fun i =>
    (downsampling_factor ^ i, WaveDiscriminatorBlock.features_lengths (L / 2 ^ i))

end WaveDiscriminator

namespace STFTDiscriminator

/-- Translated from `STFTDiscriminator.features_lengths`
(src/encoders/encoders.py lines 489-499).  Lengths live in `ℤ` (a PyTorch
integer tensor), and `torch.div(-, -, rounding_mode="floor")` is `Int.fdiv`. -/
def features_lengths (L : ℤ) : List ℤ :=
  [L - 6,
   L - 6,
   Int.fdiv (L - 5) 2,
   Int.fdiv (L - 5) 2,
   Int.fdiv (L - 3) 4,
   Int.fdiv (L - 3) 4,
   Int.fdiv (L + 1) 8,
   Int.fdiv (L + 1) 8]

/-- Length sequence as the specification words it, with genuine floors of
rational divisions. -/
def spec_lengths (L : ℤ) : List ℤ :=
  [L - 6,
   L - 6,
   ⌊((L : ℚ) - 5) / 2⌋,
   ⌊((L : ℚ) - 5) / 2⌋,
   ⌊((L : ℚ) - 3) / 4⌋,
   ⌊((L : ℚ) - 3) / 4⌋,
   ⌊((L : ℚ) + 1) / 8⌋,
   ⌊((L : ℚ) + 1) / 8⌋]

end STFTDiscriminator

/-- Int flooring division by a non-negative integer agrees with the floor of
the rational division. -/
theorem fdiv_eq_floor_ratCast (a d : ℤ) (hd : 0 ≤ d) :
    Int.fdiv a d = ⌊(a : ℚ) / (d : ℚ)⌋ := by
  lift d to ℕ using hd
  rw [Int.fdiv_eq_ediv a (by positivity), ← Rat.floor_intCast_div_natCast a d]
  norm_num

/-- Specialisation of `fdiv_eq_floor_ratCast` at divisor 2. -/
theorem fdiv_two_eq_floor (a : ℤ) : Int.fdiv a 2 = ⌊(a : ℚ) / 2⌋ := by
  rw [fdiv_eq_floor_ratCast a 2 (by norm_num)]
  norm_num

/-- Specialisation of `fdiv_eq_floor_ratCast` at divisor 4. -/
theorem fdiv_four_eq_floor (a : ℤ) : Int.fdiv a 4 = ⌊(a : ℚ) / 4⌋ := by
  rw [fdiv_eq_floor_ratCast a 4 (by norm_num)]
  norm_num

/-- Specialisation of `fdiv_eq_floor_ratCast` at divisor 8. -/
theorem fdiv_eight_eq_floor (a : ℤ) : Int.fdiv a 8 = ⌊(a : ℚ) / 8⌋ := by
  rw [fdiv_eq_floor_ratCast a 8 (by norm_num)]
  norm_num

/-- Nat floor division agrees with the Nat-floor of the rational division. -/
theorem natDiv_eq_floor_ratCast (a d : ℕ) :
    a / d = ⌊(a : ℚ) / (d : ℚ)⌋₊ := by
  rw [Nat.floor_div_nat, Nat.floor_natCast]

/-- C4: for every input length `L`, `WaveDiscriminatorBlock.features_lengths`
returns exactly the seven-element sequence
`[L, ⌊(L+3)/4⌋, ⌊(L+15)/16⌋, ⌊(L+63)/64⌋, ⌊(L+255)/256⌋, ⌊(L+255)/256⌋,
⌊(L+255)/256⌋]`, and the seven feature maps produced by
`WaveDiscriminatorBlock.forward` have exactly these time lengths. -/
theorem C4_wave_block_features_lengths (L : ℕ) :
    WaveDiscriminatorBlock.features_lengths L = WaveDiscriminatorBlock.spec_lengths L ∧
    WaveDiscriminatorBlock.forward_lengths L = WaveDiscriminatorBlock.features_lengths L := by
  constructor
  · simp only [WaveDiscriminatorBlock.features_lengths, WaveDiscriminatorBlock.spec_lengths,
      natDiv_eq_floor_ratCast]
    push_cast
    rfl
  · simp only [WaveDiscriminatorBlock.forward_lengths, WaveDiscriminatorBlock.features_lengths,
      convLen, List.cons.injEq, and_true]
    refine ⟨?_, ?_, ?_, ?_, ?_, ?_, ?_⟩ <;> split_ifs <;> omega

/-- C4 witness at a concrete input length. -/
theorem C4_wave_block_features_lengths_witness :
    WaveDiscriminatorBlock.forward_lengths 1000 = WaveDiscriminatorBlock.features_lengths 1000 :=
  (C4_wave_block_features_lengths 1000).2

/-- C5 counterexample: the sequence claimed for `L = 1000` is not what the code
computes (for instance `(1000 + 15) / 16 = 63`, not `62`). -/
theorem C5_counterexample :
    WaveDiscriminatorBlock.features_lengths 1000 ≠ [1000, 250, 62, 15, 3, 3, 3] := by
  decide

/-- C5 amended: for `L = 1000` the scale-0 length sequence equals
`[1000, 250, 63, 16, 4, 4, 4]`. -/
theorem C5_wave_lengths_at_1000 :
    WaveDiscriminatorBlock.features_lengths 1000 = [1000, 250, 63, 16, 4, 4, 4] := by
  decide

/-- C6 counterexample: with `num_D = 2`, `downsampling_factor = 4`, `L = 8`,
the scale-1 entry is computed on `8 / 2 = 4`, not on `8 / 4 ^ 1 = 2`, so it
differs from the scale-0 sequence applied to `⌊L / downsampling_factor ^ 1⌋`. -/
theorem C6_counterexample :
    ((WaveDiscriminator.features_lengths 2 4 8).getD 1 (0, [])).2 ≠
      WaveDiscriminatorBlock.features_lengths (8 / 4 ^ 1) := by
  decide

/-- C6 amended: for every `num_D`, `downsampling_factor`, input length `L` and
scale index `i < num_D`, the i-th entry of `WaveDiscriminator.features_lengths`
is keyed by `downsampling_factor ^ i` and its value is the scale-0
per-sub-discriminator sequence computed on `⌊L / 2 ^ i⌋` (the source divides
by `2 ^ i`, matching the forward pass's fixed halving `AvgPool1d`, regardless
of `downsampling_factor`). -/
theorem C6_wave_disc_lengths (num_D downsampling_factor L i : ℕ) (h : i < num_D) :
    (WaveDiscriminator.features_lengths num_D downsampling_factor L).getD i (0, []) =
      (downsampling_factor ^ i, WaveDiscriminatorBlock.features_lengths (L / 2 ^ i)) := by
  unfold WaveDiscriminator.features_lengths
  rw [List.getD_eq_getElem?_getD, List.getElem?_map, List.getElem?_range h]
  rfl

/-- C6 witness: scale 1 of 3 at `downsampling_factor = 4`, `L = 1000`. -/
theorem C6_wave_disc_lengths_witness :
    1 < 3 ∧
    (WaveDiscriminator.features_lengths 3 4 1000).getD 1 (0, []) =
      (4 ^ 1, WaveDiscriminatorBlock.features_lengths (1000 / 2 ^ 1)) :=
  ⟨by decide, C6_wave_disc_lengths 3 4 1000 1 (by decide)⟩

/-- C7: for every input time length `L`, `STFTDiscriminator.features_lengths`
returns exactly
`[L-6, L-6, ⌊(L-5)/2⌋, ⌊(L-5)/2⌋, ⌊(L-3)/4⌋, ⌊(L-3)/4⌋, ⌊(L+1)/8⌋, ⌊(L+1)/8⌋]`,
and at `L = 64` this is `[58, 58, 29, 29, 15, 15, 8, 8]`. -/
theorem C7_stft_features_lengths (L : ℤ) :
    STFTDiscriminator.features_lengths L = STFTDiscriminator.spec_lengths L ∧
    STFTDiscriminator.features_lengths 64 = [58, 58, 29, 29, 15, 15, 8, 8] := by
  constructor
  · simp only [STFTDiscriminator.features_lengths, STFTDiscriminator.spec_lengths,
      fdiv_two_eq_floor, fdiv_four_eq_floor, fdiv_eight_eq_floor]
    push_cast
    rfl
  · decide

/-! Value-level tensor model: a 1-D feature tensor is a list of channels,
each channel a list of rational time samples (the batch dimension plays no
role in any claim and is dropped). -/

/-- One channel: a time series of samples. -/
abbrev Chan := List ℚ

/-- A (channels × time) tensor. -/
abbrev Tensor1d := List Chan

/-- Time length of a tensor: the length of its first channel (all channels
produced by the embedded layers have equal length by construction). -/
def timeLen (x : Tensor1d) : ℕ := (x.headD []).length

/-- Element access with the usual zero default. -/
def val (x : Tensor1d) (c u : ℕ) : ℚ := (x.getD c []).getD u 0

/-- Two tensors have the same shape: same channel count and channel lengths. -/
def sameShape (x y : Tensor1d) : Prop := x.map List.length = y.map List.length

instance (x y : Tensor1d) : Decidable (sameShape x y) := by
  unfold sameShape
  infer_instance

/-- Elementwise getD of a mapped range list. -/
theorem getD_range_map {α : Type} (f : ℕ → α) (n i : ℕ) (d : α) :
    ((List.range n).map f).getD i d = if i < n then f i else d := by
  by_cases h : i < n
  · rw [List.getD_eq_getElem?_getD, List.getElem?_map, List.getElem?_range h]
    simp [h]
  · rw [List.getD_eq_getElem?_getD, List.getElem?_map]
    rw [List.getElem?_eq_none (by simpa using le_of_not_lt h)]
    simp [h]

/-- Head of a mapped nonempty range list. -/
theorem headD_range_map {α : Type} (f : ℕ → α) (n : ℕ) (d : α) (hn : 0 < n) :
    ((List.range n).map f).headD d = f 0 := by
  cases n with
  | zero => omega
  | succ m =>
    rw [List.range_succ_eq_map]
    simp

/-- Python's negative-end slice `x[:-c]` on a list, for an arbitrary integer
`c` (as in the source's `[..., :-self.causal_padding]`): for `c > 0` it drops
the last `c` elements, for `c = 0` it is `x[:0] = []`, and for `c < 0` it is
`x[:(-c)]`, the first `-c` elements. -/
def pySliceNegEnd (c : ℤ) (xs : Chan) : Chan :=
  if 0 < c then xs.take (xs.length - c.toNat)
  else if c = 0 then []
  else xs.take (-c).toNat

/-- Output length of the untrimmed `F.conv_transpose1d` with kernel `k`,
stride `s`, padding `p`, output padding `o`, dilation `d` on input length `L`:
`(L-1)*s + d*(k-1) + o + 1 - 2*p` (empty output for `L = 0`, where PyTorch
raises). -/
def convTransposeLen (k s p o d L : ℕ) : ℕ :=
  if L = 0 then 0 else (L - 1) * s + d * (k - 1) + o + 1 - 2 * p

/-- Parameters of `CausalConvTranspose1d` (src/encoders/encoders.py lines
23-37), a subclass of `nn.ConvTranspose1d`.  The weight layout is PyTorch's
`(in_channels, out_channels, kernel_size)`. -/
structure CausalConvTranspose1d where
  in_channels : ℕ
  out_channels : ℕ
  kernel_size : ℕ
  stride : ℕ
  padding : ℕ
  output_padding : ℕ
  dilation : ℕ
  padding_mode : String
  weight : List (List Chan)
  bias : List ℚ

instance : Inhabited CausalConvTranspose1d :=
  ⟨⟨0, 0, 0, 0, 0, 0, 0, "zeros", [], []⟩⟩

namespace CausalConvTranspose1d

/-- Stored at construction (src line 26):
`dilation * (kernel_size - 1) + output_padding + 1 - stride`, an integer that
can be zero or negative for some configurations. -/
def causal_padding (p : CausalConvTranspose1d) : ℤ :=
  (p.dilation : ℤ) * ((p.kernel_size : ℤ) - 1) + p.output_padding + 1 - p.stride

/-- Construction (src lines 24-26).  The `nn.ConvTranspose1d` base-class
constructor, which `CausalConvTranspose1d.__init__` invokes first, raises
`ValueError` for any `padding_mode` other than `"zeros"` (documented PyTorch
behaviour inherited by this subclass); otherwise the module is created with
the given configuration and parameters. -/
def init (in_c out_c k s pad o d : ℕ) (mode : String)
    (w : List (List Chan)) (b : List ℚ) : Except String CausalConvTranspose1d :=
  if mode ≠ "zeros" then
    Except.error "Only zeros padding mode is supported for ConvTranspose1d"
  else
    Except.ok ⟨in_c, out_c, k, s, pad, o, d, mode, w, b⟩

/-- One output sample of the untrimmed transposed convolution:
`y[oc, t] = bias[oc] + sum over in-channels ic, input positions j and kernel
taps i with `j*stride + i*dilation = t + padding` of `w[ic][oc][i] * x[ic][j]`. -/
def fullFrame (p : CausalConvTranspose1d) (x : Tensor1d) (oc t : ℕ) : ℚ :=
  p.bias.getD oc 0 +
    ∑ ic ∈ Finset.range p.in_channels,
      ∑ j ∈ Finset.range (timeLen x),
        ∑ i ∈ Finset.range p.kernel_size,
          if j * p.stride + i * p.dilation = t + p.padding then
            ((p.weight.getD ic []).getD oc []).getD i 0 * (x.getD ic []).getD j 0
          else 0

/-- The untrimmed `F.conv_transpose1d` output (src lines 35-37 before the
final slice). -/
def full (p : CausalConvTranspose1d) (x : Tensor1d) : Tensor1d :=
  (List.range p.out_channels).map fun oc =>
    (List.range (convTransposeLen p.kernel_size p.stride p.padding
      p.output_padding p.dilation (timeLen x))).map fun t => p.fullFrame x oc t

/-- The value computed by `forward` (src lines 28-37): the untrimmed
transposed convolution followed by the Python slice `[..., :-causal_padding]`
on the time axis. -/
def applyT (p : CausalConvTranspose1d) (x : Tensor1d) : Tensor1d :=
  (p.full x).map (pySliceNegEnd p.causal_padding)

/-- `forward` itself (src lines 28-37): raises for non-`"zeros"` padding
modes, otherwise returns the sliced transposed convolution. -/
def forward (p : CausalConvTranspose1d) (x : Tensor1d) : Except String Tensor1d :=
  if p.padding_mode ≠ "zeros" then
    Except.error "Only zeros padding mode is supported for ConvTranspose1d"
  else
    Except.ok (p.applyT x)

end CausalConvTranspose1d

/-- Time length of the untrimmed transposed convolution output. -/
theorem timeLen_full (p : CausalConvTranspose1d) (x : Tensor1d)
    (hoc : 0 < p.out_channels) :
    timeLen (p.full x) = convTransposeLen p.kernel_size p.stride p.padding
      p.output_padding p.dilation (timeLen x) := by
  unfold timeLen CausalConvTranspose1d.full
  rw [headD_range_map _ _ _ hoc]
  simp [timeLen]

/-- Time length of a channel-wise map that shortens every channel by `k`. -/
theorem timeLen_map_chan (f : Chan → Chan) (k : ℕ) (x : Tensor1d)
    (hf : ∀ ch, (f ch).length = ch.length - k) :
    timeLen (x.map f) = timeLen x - k := by
  cases x with
  | nil => simp [timeLen]
  | cons ch t => simp [timeLen, hf]

/-- C9: requesting a padding mode other than zero-fill is rejected: the
constructor of `CausalConvTranspose1d` (via its `nn.ConvTranspose1d` base
class) raises immediately at construction, and `forward` of any module whose
`padding_mode` is not `"zeros"` raises as well, so such a primitive never
executes a forward pass successfully. -/
theorem C9_nonzeros_padding_mode_rejected (in_c out_c k s pad o d : ℕ)
    (mode : String) (w : List (List Chan)) (b : List ℚ)
    (p : CausalConvTranspose1d) (x : Tensor1d)
    (hmode : mode ≠ "zeros") (hp : p.padding_mode = mode) :
    CausalConvTranspose1d.init in_c out_c k s pad o d mode w b =
      Except.error "Only zeros padding mode is supported for ConvTranspose1d" ∧
    p.forward x =
      Except.error "Only zeros padding mode is supported for ConvTranspose1d" := by
  constructor
  · simp [CausalConvTranspose1d.init, hmode]
  · simp [CausalConvTranspose1d.forward, hp, hmode]

/-- C9 witness: the `"reflect"` padding mode at a concrete configuration. -/
theorem C9_nonzeros_padding_mode_rejected_witness :
    ("reflect" : String) ≠ "zeros" ∧
    CausalConvTranspose1d.init 1 1 2 1 0 0 1 "reflect" [[[1, 1]]] [0] =
      Except.error "Only zeros padding mode is supported for ConvTranspose1d" ∧
    CausalConvTranspose1d.forward
        ⟨1, 1, 2, 1, 0, 0, 1, "reflect", [[[1, 1]]], [0]⟩ [[5]] =
      Except.error "Only zeros padding mode is supported for ConvTranspose1d" := by
  refine ⟨by decide, ?_⟩
  have h := C9_nonzeros_padding_mode_rejected 1 1 2 1 0 0 1 "reflect" [[[1, 1]]] [0]
    ⟨1, 1, 2, 1, 0, 0, 1, "reflect", [[[1, 1]]], [0]⟩ [[5]] (by decide) rfl
  exact h

/-- C8 counterexample: with kernel 1, dilation 1, stride 1, output padding 0
the stored `causal_padding` is `0`, and `forward` then returns an empty
output (the Python slice `[:-0]` is `[:0]`) instead of the untrimmed
transposed-convolution output with no samples removed. -/
theorem C8_counterexample :
    CausalConvTranspose1d.causal_padding
        ⟨1, 1, 1, 1, 0, 0, 1, "zeros", [[[1]]], [0]⟩ = 0 ∧
    CausalConvTranspose1d.applyT
        ⟨1, 1, 1, 1, 0, 0, 1, "zeros", [[[1]]], [0]⟩ [[5]] ≠
      CausalConvTranspose1d.full
        ⟨1, 1, 1, 1, 0, 0, 1, "zeros", [[[1]]], [0]⟩ [[5]] := by
  constructor
  · decide
  · intro h
    have hlen := congrArg timeLen h
    rw [timeLen_full _ _ (by decide)] at hlen
    revert hlen
    decide

/-- C8 amended: for every configuration with `padding = 0` and
`causal_padding = dilation*(kernel_size-1) + output_padding + 1 - stride ≥ 1`
(this covers every decoder use, where `kernel = 2*stride` gives
`causal_padding = stride ≥ 1`), and every input with at least one sample,
`forward`'s value is the standard transposed-convolution output with exactly
`causal_padding` samples removed from the right edge, and its length is
exactly `timeLen x * stride`; when `causal_padding = 0` the code instead
returns an empty output (Python slice `[:-0]`), removing everything. -/
theorem C8_causal_transpose_trims (p : CausalConvTranspose1d) (x : Tensor1d)
    (hpad : p.padding = 0) (hk : 1 ≤ p.kernel_size) (hc : 1 ≤ p.causal_padding)
    (hs : 1 ≤ p.stride) (hoc : 1 ≤ p.out_channels) (hL : 1 ≤ timeLen x) :
    p.causal_padding.toNat ≤ timeLen (p.full x) ∧
    timeLen (p.full x) = timeLen x * p.stride + p.causal_padding.toNat ∧
    p.applyT x = (p.full x).map (fun ch => ch.take (ch.length - p.causal_padding.toNat)) ∧
    timeLen (p.applyT x) = timeLen x * p.stride := by
  have hk1 : ((p.kernel_size : ℤ) - 1) = ((p.kernel_size - 1 : ℕ) : ℤ) := by omega
  have hcast : p.causal_padding =
      ((p.dilation * (p.kernel_size - 1) : ℕ) : ℤ) + p.output_padding + 1 - p.stride := by
    unfold CausalConvTranspose1d.causal_padding
    rw [hk1]
    push_cast
    ring
  have hsub : (timeLen x - 1) * p.stride = timeLen x * p.stride - p.stride :=
    Nat.sub_one_mul _ _
  have hsle : p.stride ≤ timeLen x * p.stride :=
    Nat.le_mul_of_pos_left p.stride (by omega)
  have hfull : timeLen (p.full x) = timeLen x * p.stride + p.causal_padding.toNat := by
    rw [timeLen_full _ _ (by omega)]
    unfold convTransposeLen
    rw [if_neg (by omega), hpad, hsub, hcast]
    rw [hcast] at hc
    omega
  have hmap : p.applyT x =
      (p.full x).map (fun ch => ch.take (ch.length - p.causal_padding.toNat)) := by
    have hfun : pySliceNegEnd p.causal_padding =
        fun ch => ch.take (ch.length - p.causal_padding.toNat) := by
      funext ch
      unfold pySliceNegEnd
      rw [if_pos (by omega)]
    unfold CausalConvTranspose1d.applyT
    rw [hfun]
  refine ⟨by omega, hfull, hmap, ?_⟩
  have hlen : timeLen (p.applyT x) = timeLen (p.full x) - p.causal_padding.toNat := by
    rw [hmap]
    refine timeLen_map_chan _ _ _ ?_
    intro ch
    rw [List.length_take]
    omega
  omega

/-- C8 amended witness: kernel 2, stride 1 (so `causal_padding = 1`) on a
two-sample input. -/
theorem C8_causal_transpose_trims_witness :
    (⟨1, 1, 2, 1, 0, 0, 1, "zeros", [[[1, 1]]], [0]⟩ :
        CausalConvTranspose1d).padding = 0 ∧
    1 ≤ (⟨1, 1, 2, 1, 0, 0, 1, "zeros", [[[1, 1]]], [0]⟩ :
        CausalConvTranspose1d).causal_padding ∧
    timeLen (CausalConvTranspose1d.applyT
        ⟨1, 1, 2, 1, 0, 0, 1, "zeros", [[[1, 1]]], [0]⟩ [[1, 2]]) =
      timeLen [[(1 : ℚ), 2]] * 1 := by
  refine ⟨by decide, by decide, ?_⟩
  have h := C8_causal_transpose_trims
    ⟨1, 1, 2, 1, 0, 0, 1, "zeros", [[[1, 1]]], [0]⟩ [[1, 2]]
    (by decide) (by decide) (by decide) (by decide) (by decide) (by decide)
  exact h.2.2.2

/-! Causal convolution, ELU, residual addition. -/

/-- Parameters of `CausalConv1d` (src/encoders/encoders.py lines 14-20), a
subclass of `nn.Conv1d` with no symmetric padding.  The weight layout is
PyTorch's `(out_channels, in_channels, kernel_size)`.  A plain
`nn.Conv1d(kernel_size=1)` (the pointwise convolution inside `ResidualUnit`)
has the same forward semantics as a `CausalConv1d` with kernel size 1, whose
causal padding is 0. -/
structure CausalConv1d where
  in_channels : ℕ
  out_channels : ℕ
  kernel_size : ℕ
  stride : ℕ
  dilation : ℕ
  weight : List (List Chan)
  bias : List ℚ

instance : Inhabited CausalConv1d := ⟨⟨0, 0, 0, 0, 0, [], []⟩⟩

namespace CausalConv1d

/-- Stored at construction (src line 17): `dilation * (kernel_size - 1)`. -/
def causal_padding (p : CausalConv1d) : ℕ := p.dilation * (p.kernel_size - 1)

/-- Output time length: the input is left-padded by `causal_padding` and then
convolved with effective kernel span `dilation*(kernel_size-1)+1` at the given
stride. -/
def outLen (p : CausalConv1d) (L : ℕ) : ℕ :=
  convLen (p.dilation * (p.kernel_size - 1) + 1) p.stride 0 (L + p.causal_padding)

/-- One output sample:
`y[oc, t] = bias[oc] + sum over ic < in_channels, i < kernel_size of
w[oc][ic][i] * xpad[ic][t*stride + i*dilation]` where `xpad` is the input
left-padded with `causal_padding` zeros (src line 20). -/
def frame (p : CausalConv1d) (x : Tensor1d) (oc t : ℕ) : ℚ :=
  p.bias.getD oc 0 +
    ∑ ic ∈ Finset.range p.in_channels,
      ∑ i ∈ Finset.range p.kernel_size,
        ((p.weight.getD oc []).getD ic []).getD i 0 *
          (List.replicate p.causal_padding 0 ++ x.getD ic []).getD
            (t * p.stride + i * p.dilation) 0

/-- `forward` (src lines 19-20): pad left by `causal_padding`, then the
standard valid cross-correlation. -/
def forward (p : CausalConv1d) (x : Tensor1d) : Tensor1d :=
  (List.range p.out_channels).map fun oc =>
    (List.range (p.outLen (timeLen x))).map fun t => p.frame x oc t

/-- PyTorch checks the channel count of the input against the module's
`in_channels` and raises a shape error on mismatch; `forwardChecked` models
that check (degenerate time lengths are totalised as in the file docstring). -/
def forwardChecked (p : CausalConv1d) (x : Tensor1d) : Option Tensor1d :=
  if x.length = p.in_channels then some (p.forward x) else none

end CausalConv1d

/-- Pointwise application of the activation (`nn.ELU` in the source; as every
property proved here is independent of the pointwise function, it is a
parameter `phi`). -/
def eluMap (phi : ℚ → ℚ) (x : Tensor1d) : Tensor1d := x.map (List.map phi)

/-- Elementwise tensor addition (the residual `x + self.layers(x)`,
src line 55) for equally shaped tensors; `List.zipWith` truncates on
mismatched shapes, which never occurs on the checked path. -/
def addT (x y : Tensor1d) : Tensor1d := List.zipWith (List.zipWith (· + ·)) x y

/-- Shape-checked residual addition: PyTorch raises on un-broadcastable
shapes; on the codec's residual path the shapes are equal whenever no earlier
layer raised. -/
def addChecked (x y : Tensor1d) : Option Tensor1d :=
  if x.map List.length = y.map List.length then some (addT x y) else none

/-- Every channel has the common time length. -/
def Rect (x : Tensor1d) : Prop := ∀ ch ∈ x, ch.length = timeLen x

instance (x : Tensor1d) : Decidable (Rect x) := by
  unfold Rect
  infer_instance

/-- Channel-length profile of a causal convolution output. -/
theorem CausalConv1d.shape_forward (p : CausalConv1d) (x : Tensor1d) :
    (p.forward x).map List.length =
      List.replicate p.out_channels (p.outLen (timeLen x)) := by
  unfold CausalConv1d.forward
  rw [List.map_map]
  have : (List.length ∘ fun oc =>
      (List.range (p.outLen (timeLen x))).map fun t => p.frame x oc t) =
      fun _ => p.outLen (timeLen x) := by
    funext oc
    simp
  rw [this, List.map_const', List.length_range]

/-- Time length of a causal convolution output. -/
theorem CausalConv1d.timeLen_forward_conv (p : CausalConv1d) (x : Tensor1d)
    (hoc : 0 < p.out_channels) :
    timeLen (p.forward x) = p.outLen (timeLen x) := by
  unfold timeLen CausalConv1d.forward
  rw [headD_range_map _ _ _ hoc]
  simp [timeLen]

/-- A stride-1 causal convolution preserves the time length. -/
theorem CausalConv1d.outLen_stride_one (p : CausalConv1d) (h : p.stride = 1)
    (L : ℕ) : p.outLen L = L := by
  unfold CausalConv1d.outLen convLen CausalConv1d.causal_padding
  rw [h]
  split_ifs <;> omega

/-- ELU preserves shapes. -/
theorem shape_eluMap (phi : ℚ → ℚ) (x : Tensor1d) :
    (eluMap phi x).map List.length = x.map List.length := by
  unfold eluMap
  rw [List.map_map]
  have : (List.length ∘ List.map phi) = fun ch : Chan => ch.length := by
    funext ch
    simp
  rw [this]

/-- ELU preserves the time length. -/
theorem timeLen_eluMap (phi : ℚ → ℚ) (x : Tensor1d) :
    timeLen (eluMap phi x) = timeLen x := by
  cases x with
  | nil => rfl
  | cons ch t => simp [timeLen, eluMap]

/-- ELU preserves the channel count. -/
theorem length_eluMap (phi : ℚ → ℚ) (x : Tensor1d) :
    (eluMap phi x).length = x.length := by
  simp [eluMap]

/-- Channel-length profile of a residual addition. -/
theorem map_length_addT (x y : Tensor1d) :
    (addT x y).map List.length =
      List.zipWith min (x.map List.length) (y.map List.length) := by
  unfold addT
  rw [List.map_zipWith, List.zipWith_map]
  congr 1
  funext a b
  exact List.length_zipWith _ _ _

/-- Adding equally shaped tensors preserves the shape. -/
theorem map_length_addT_self (x y : Tensor1d)
    (h : x.map List.length = y.map List.length) :
    (addT x y).map List.length = x.map List.length := by
  rw [map_length_addT, h, List.zipWith_same]
  simp

/-- A rectangular tensor's shape profile is constant. -/
theorem rect_map_length (x : Tensor1d) (h : Rect x) :
    x.map List.length = List.replicate x.length (timeLen x) := by
  rw [List.eq_replicate]
  refine ⟨by simp, ?_⟩
  intro b hb
  obtain ⟨ch, hch, rfl⟩ := List.mem_map.1 hb
  exact h ch hch

/-! `ResidualUnit` (src/encoders/encoders.py lines 40-55). -/

/-- Parameters of `ResidualUnit`: a kernel-7 causal convolution at the given
dilation followed (after ELU) by a pointwise kernel-1 convolution, with an
additive skip.  Note the source constructs the pointwise convolution with
`in_channels=in_channels` (src line 50) even though it receives the
`out_channels`-wide output of the first convolution. -/
structure ResidualUnit where
  in_channels : ℕ
  out_channels : ℕ
  dilation : ℕ
  conv1 : CausalConv1d
  conv2 : CausalConv1d

instance : Inhabited ResidualUnit := ⟨⟨0, 0, 0, default, default⟩⟩

/-- Constructor facts for `ResidualUnit` (src lines 46-52): field wiring of
the two convolutions, including the pointwise convolution's `in_channels`
input width. -/
def ResidualUnit.Wf (ru : ResidualUnit) : Prop :=
  ru.conv1.in_channels = ru.in_channels ∧ ru.conv1.out_channels = ru.out_channels ∧
  ru.conv1.kernel_size = 7 ∧ ru.conv1.dilation = ru.dilation ∧ ru.conv1.stride = 1 ∧
  ru.conv2.in_channels = ru.in_channels ∧ ru.conv2.out_channels = ru.out_channels ∧
  ru.conv2.kernel_size = 1 ∧ ru.conv2.dilation = 1 ∧ ru.conv2.stride = 1

instance (ru : ResidualUnit) : Decidable ru.Wf := by
  unfold ResidualUnit.Wf
  infer_instance

/-- Unchecked value of `ResidualUnit.forward` (src lines 54-55):
`x + conv2 (ELU (conv1 x))`. -/
def ResidualUnit.forward (phi : ℚ → ℚ) (ru : ResidualUnit) (x : Tensor1d) :
    Tensor1d :=
  addT x (ru.conv2.forward (eluMap phi (ru.conv1.forward x)))

/-- `ResidualUnit.forward` with PyTorch's channel checks. -/
def ResidualUnit.forwardChecked (phi : ℚ → ℚ) (ru : ResidualUnit)
    (x : Tensor1d) : Option Tensor1d := do
  let y1 ← ru.conv1.forwardChecked x
  let y2 ← ru.conv2.forwardChecked (eluMap phi y1)
  addChecked x y2

/-- A residual unit with matching stride-1 convolutions preserves the time
length of any input (given at least one output channel). -/
theorem ResidualUnit.timeLen_forward_ru (phi : ℚ → ℚ) (ru : ResidualUnit)
    (x : Tensor1d) (h1 : ru.conv1.stride = 1) (h2 : ru.conv2.stride = 1)
    (hoc1 : 0 < ru.conv1.out_channels) (hoc2 : 0 < ru.conv2.out_channels) :
    timeLen (ru.forward phi x) = timeLen x := by
  unfold ResidualUnit.forward
  cases x with
  | nil => rfl
  | cons ch t =>
    have hy : timeLen (ru.conv2.forward (eluMap phi (ru.conv1.forward (ch :: t)))) =
        timeLen (ch :: t) := by
      rw [CausalConv1d.timeLen_forward_conv _ _ hoc2,
        CausalConv1d.outLen_stride_one _ h2, timeLen_eluMap,
        CausalConv1d.timeLen_forward_conv _ _ hoc1,
        CausalConv1d.outLen_stride_one _ h1]
    generalize hgen :
      ru.conv2.forward (eluMap phi (ru.conv1.forward (ch :: t))) = y at hy
    cases y with
    | nil =>
      simp [timeLen] at hy
      simp [addT, timeLen, hy]
    | cons ch2 t2 =>
      simp [timeLen] at hy
      simp [addT, timeLen, hy]

/-- C10: a `ResidualUnit` only accepts `in_channels = out_channels`.  When
both equal `c` (`c ≥ 1`), `forward` maps every `c`-channel rectangular input
with at least 0 samples to `input + Conv1x1(ELU(CausalConv_k7_d(input)))` of
the identical shape; when `in_channels ≠ out_channels` the pointwise
convolution — constructed with `in_channels` as its input width (src line
50) but fed the `out_channels`-wide output of the first convolution — raises
a channel-shape error on every input. -/
theorem C10_residual_unit_channel_safety (phi : ℚ → ℚ) :
    (∀ (c : ℕ) (ru : ResidualUnit) (x : Tensor1d),
      ru.Wf → ru.in_channels = c → ru.out_channels = c → 0 < c →
      x.length = c → Rect x →
      ru.forwardChecked phi x = some (ru.forward phi x) ∧
      (ru.forward phi x).map List.length = x.map List.length) ∧
    (∀ (ru : ResidualUnit) (x : Tensor1d),
      ru.Wf → ru.in_channels ≠ ru.out_channels →
      ru.forwardChecked phi x = none) := by
  constructor
  · intro c ru x hwf hin hout hpos hx hrect
    obtain ⟨h1i, h1o, h1k, h1d, h1s, h2i, h2o, h2k, h2d, h2s⟩ := hwf
    have hc1 : ru.conv1.forwardChecked x = some (ru.conv1.forward x) := by
      unfold CausalConv1d.forwardChecked
      rw [if_pos (by rw [h1i, hin]; exact hx)]
    have hlen1 : (eluMap phi (ru.conv1.forward x)).length = c := by
      rw [length_eluMap]
      unfold CausalConv1d.forward
      simp [h1o, hout]
    have hc2 : ru.conv2.forwardChecked (eluMap phi (ru.conv1.forward x)) =
        some (ru.conv2.forward (eluMap phi (ru.conv1.forward x))) := by
      unfold CausalConv1d.forwardChecked
      rw [if_pos (by rw [hlen1, h2i, hin])]
    have hshape2 : (ru.conv2.forward (eluMap phi (ru.conv1.forward x))).map
        List.length = x.map List.length := by
      rw [CausalConv1d.shape_forward, CausalConv1d.outLen_stride_one _ h2s,
        timeLen_eluMap, CausalConv1d.timeLen_forward_conv _ _ (by omega),
        CausalConv1d.outLen_stride_one _ h1s, rect_map_length x hrect, hx,
        h2o, hout]
    constructor
    · unfold ResidualUnit.forwardChecked
      rw [hc1]
      simp only [Option.bind_eq_bind, Option.some_bind]
      rw [hc2]
      simp only [Option.some_bind]
      unfold addChecked
      rw [if_pos hshape2.symm]
      rfl
    · unfold ResidualUnit.forward
      exact map_length_addT_self _ _ hshape2.symm
  · intro ru x hwf hneq
    obtain ⟨h1i, h1o, h1k, h1d, h1s, h2i, h2o, h2k, h2d, h2s⟩ := hwf
    have hlen1 : (eluMap phi (ru.conv1.forward x)).length = ru.out_channels := by
      rw [length_eluMap]
      unfold CausalConv1d.forward
      simp [h1o]
    by_cases hx : x.length = ru.conv1.in_channels
    · unfold ResidualUnit.forwardChecked CausalConv1d.forwardChecked
      rw [if_pos hx]
      simp only [Option.bind_eq_bind, Option.some_bind]
      rw [if_neg (by rw [hlen1, h2i]; exact fun h => hneq h.symm)]
      rfl
    · unfold ResidualUnit.forwardChecked CausalConv1d.forwardChecked
      rw [if_neg hx]
      rfl

/-- Concrete channel-preserving residual unit for the C10 witness. -/
def ruEq : ResidualUnit :=
  ⟨1, 1, 1, ⟨1, 1, 7, 1, 1, [[[0, 0, 0, 0, 0, 0, 0]]], [0]⟩,
    ⟨1, 1, 1, 1, 1, [[[0]]], [0]⟩⟩

/-- Concrete channel-changing residual unit for the C10 witness. -/
def ruNe : ResidualUnit :=
  ⟨1, 2, 1, ⟨1, 2, 7, 1, 1, [[[0, 0, 0, 0, 0, 0, 0]], [[0, 0, 0, 0, 0, 0, 0]]], [0, 0]⟩,
    ⟨1, 2, 1, 1, 1, [[[0]], [[0]]], [0, 0]⟩⟩

/-- C10 witness: the two concrete residual units above on a one-channel
two-sample input. -/
theorem C10_residual_unit_channel_safety_witness :
    (ResidualUnit.forwardChecked id ruEq [[1, 2]] =
      some (ResidualUnit.forward id ruEq [[1, 2]]) ∧
    (ResidualUnit.forward id ruEq [[1, 2]]).map List.length =
      ([[1, 2]] : Tensor1d).map List.length) ∧
    ResidualUnit.forwardChecked id ruNe [[1, 2]] = none := by
  constructor
  · exact (C10_residual_unit_channel_safety id).1 1 ruEq [[1, 2]]
      (by decide) (by decide) (by decide) (by decide) (by decide) (by decide)
  · exact (C10_residual_unit_channel_safety id).2 ruNe [[1, 2]]
      (by decide) (by decide)

/-! `EncoderBlock` / `DecoderBlock` and the SoundStreamXL encoder/decoder
(src/encoders/encoders.py lines 58-101, 249-297). -/

/-- Helper division facts for causal convolution lengths. -/
theorem CausalConv1d.outLen_eq (p : CausalConv1d) (L : ℕ) :
    p.outLen L = if L = 0 then 0 else (L - 1) / p.stride + 1 := by
  unfold CausalConv1d.outLen convLen CausalConv1d.causal_padding
  have h : L + p.dilation * (p.kernel_size - 1) + 2 * 0 -
      (p.dilation * (p.kernel_size - 1) + 1) = L - 1 := by omega
  rw [h]
  split_ifs
  all_goals first
  | rfl
  | (exfalso; omega)

/-- An exact multiple of the stride downsamples exactly. -/
theorem CausalConv1d.outLen_mul (p : CausalConv1d) (q : ℕ) (hs : 1 ≤ p.stride) :
    p.outLen (p.stride * q) = q := by
  rw [CausalConv1d.outLen_eq]
  rcases Nat.eq_zero_or_pos q with hq | hq
  · subst hq
    simp
  · obtain ⟨m, rfl⟩ : ∃ m, q = m + 1 := ⟨q - 1, by omega⟩
    rw [if_neg (Nat.mul_ne_zero (by omega) (by omega))]
    have h1 : p.stride * (m + 1) - 1 = (p.stride - 1) + m * p.stride := by
      have h2 : p.stride * m = m * p.stride := Nat.mul_comm _ _
      rw [Nat.mul_succ]
      omega
    rw [h1, Nat.add_mul_div_right _ _ (by omega), Nat.div_eq_of_lt (by omega)]
    omega

/-- Turning an indexed `getD` description into a `map` equation. -/
theorem map_eq_of_getD {α β : Type} [Inhabited α] (f : α → β) (l : List α)
    (r : List β) (dflt : β) (hlen : l.length = r.length)
    (h : ∀ i, i < l.length → f (l.getD i default) = r.getD i dflt) :
    l.map f = r := by
  apply List.ext_getElem (by simpa using hlen)
  intro i h1 h2
  have h3 := h i (by simpa using h1)
  rw [List.getD_eq_getElem l default (by simpa using h1),
    List.getD_eq_getElem r dflt h2] at h3
  simpa using h3

/-- Parameters of `EncoderBlock` (src lines 58-77): three channel-preserving
residual units at dilations 1, 3, 9, interleaved with ELU, then a causal
convolution of kernel `2*stride` at the given stride. -/
structure EncoderBlock where
  in_channels : ℕ
  out_channels : ℕ
  stride : ℕ
  ru1 : ResidualUnit
  ru2 : ResidualUnit
  ru3 : ResidualUnit
  down : CausalConv1d

instance : Inhabited EncoderBlock :=
  ⟨⟨0, 0, 0, default, default, default, default⟩⟩

/-- Constructor facts of `EncoderBlock` (src lines 59-74); the strided
convolution's stride is positive because `nn.Conv1d` rejects non-positive
strides at construction. -/
def EncoderBlock.Wf (b : EncoderBlock) : Prop :=
  b.ru1.Wf ∧ b.ru1.in_channels = b.in_channels ∧
  b.ru1.out_channels = b.in_channels ∧ b.ru1.dilation = 1 ∧
  b.ru2.Wf ∧ b.ru2.in_channels = b.in_channels ∧
  b.ru2.out_channels = b.in_channels ∧ b.ru2.dilation = 3 ∧
  b.ru3.Wf ∧ b.ru3.in_channels = b.in_channels ∧
  b.ru3.out_channels = b.in_channels ∧ b.ru3.dilation = 9 ∧
  b.down.in_channels = b.in_channels ∧ b.down.out_channels = b.out_channels ∧
  b.down.kernel_size = 2 * b.stride ∧ b.down.stride = b.stride ∧
  b.down.dilation = 1 ∧ 1 ≤ b.stride

instance (b : EncoderBlock) : Decidable b.Wf := by
  unfold EncoderBlock.Wf
  infer_instance

/-- `EncoderBlock.forward` (src lines 76-77). -/
def EncoderBlock.forward (phi : ℚ → ℚ) (b : EncoderBlock) (x : Tensor1d) :
    Tensor1d :=
  b.down.forward (eluMap phi (b.ru3.forward phi (eluMap phi
    (b.ru2.forward phi (eluMap phi (b.ru1.forward phi x))))))

/-- An encoder block downsamples the time length through its final strided
convolution. -/
theorem EncoderBlock.timeLen_forward_encBlock (phi : ℚ → ℚ) (b : EncoderBlock)
    (x : Tensor1d) (hwf : b.Wf) (hin : 0 < b.in_channels)
    (hout : 0 < b.out_channels) :
    timeLen (b.forward phi x) = b.down.outLen (timeLen x) := by
  obtain ⟨w1, w1i, w1o, w1d, w2, w2i, w2o, w2d, w3, w3i, w3o, w3d,
    wdi, wdo, wdk, wds, wdd, wspos⟩ := hwf
  unfold EncoderBlock.forward
  rw [CausalConv1d.timeLen_forward_conv _ _ (by omega), timeLen_eluMap,
    ResidualUnit.timeLen_forward_ru _ _ _ w3.2.2.2.2.1 w3.2.2.2.2.2.2.2.2.2
      (by rw [w3.2.1, w3o]; omega) (by rw [w3.2.2.2.2.2.2.1, w3o]; omega),
    timeLen_eluMap,
    ResidualUnit.timeLen_forward_ru _ _ _ w2.2.2.2.2.1 w2.2.2.2.2.2.2.2.2.2
      (by rw [w2.2.1, w2o]; omega) (by rw [w2.2.2.2.2.2.2.1, w2o]; omega),
    timeLen_eluMap,
    ResidualUnit.timeLen_forward_ru _ _ _ w1.2.2.2.2.1 w1.2.2.2.2.2.2.2.2.2
      (by rw [w1.2.1, w1o]; omega) (by rw [w1.2.2.2.2.2.2.1, w1o]; omega)]

/-- Time length through the encoder's block cascade: an input whose length is
the product of the block strides times `T` comes out with length `T`. -/
theorem timeLen_enc_fold (phi : ℚ → ℚ) (bs : List EncoderBlock) (x : Tensor1d)
    (T : ℕ) (hT : timeLen x = (bs.map (fun b => b.stride)).prod * T)
    (hwf : ∀ b ∈ bs, b.Wf ∧ 0 < b.in_channels ∧ 0 < b.out_channels) :
    timeLen (bs.foldl (fun acc b => eluMap phi (b.forward phi acc)) x) = T := by
  induction bs generalizing x with
  | nil =>
    simpa using hT
  | cons b bs ih =>
    obtain ⟨hbwf, hbin, hbout⟩ := hwf b (by simp)
    have hcopy := hbwf
    obtain ⟨-, -, -, -, -, -, -, -, -, -, -, -, -, -, -, hds, -, hsp⟩ := hcopy
    have hstep : timeLen (eluMap phi (b.forward phi x)) =
        (bs.map (fun b => b.stride)).prod * T := by
      rw [timeLen_eluMap, EncoderBlock.timeLen_forward_encBlock _ _ _ hbwf hbin hbout]
      have hmap : timeLen x =
          b.down.stride * ((bs.map (fun b => b.stride)).prod * T) := by
        rw [hT, hds]
        simp only [List.map_cons, List.prod_cons]
        ring
      rw [hmap, CausalConv1d.outLen_mul _ _ (by rw [hds]; exact hsp)]
    exact ih _ hstep (fun b hb => hwf b (by simp [hb]))

/-- Parameters of `SoundStreamXLEncoder` (src lines 249-271). -/
structure SoundStreamXLEncoder where
  n_channels : ℕ
  latent_dim : ℕ
  n_io_channels : ℕ
  strides : List ℕ
  c_mults : List ℕ
  conv_in : CausalConv1d
  blocks : List EncoderBlock
  conv_out : CausalConv1d

/-- Default constructor arguments of `SoundStreamXLEncoder` (src line 250). -/
def SoundStreamXLEncoder.default_strides : List ℕ := [2, 2, 4, 5, 8]

/-- Default channel multipliers of `SoundStreamXLEncoder` (src line 250). -/
def SoundStreamXLEncoder.default_c_mults : List ℕ := [2, 4, 4, 8, 16]

/-- Constructor facts of `SoundStreamXLEncoder` (src lines 250-268): with
`cm = 1 :: c_mults` (the source prepends 1, line 253), an input kernel-7
causal convolution `n_io_channels → cm[0]*n_channels`, one block
`cm[i]*n_channels → cm[i+1]*n_channels` at `strides[i]` per multiplier, and a
kernel-3 output projection to `latent_dim`. -/
def SoundStreamXLEncoder.Wf (e : SoundStreamXLEncoder) : Prop :=
  e.conv_in.in_channels = e.n_io_channels ∧
  e.conv_in.out_channels = 1 * e.n_channels ∧
  e.conv_in.kernel_size = 7 ∧ e.conv_in.stride = 1 ∧ e.conv_in.dilation = 1 ∧
  e.blocks.length = e.c_mults.length ∧
  e.strides.length = e.c_mults.length ∧
  (∀ i, i < e.blocks.length →
    (e.blocks.getD i default).Wf ∧
    (e.blocks.getD i default).in_channels =
      (1 :: e.c_mults).getD i 1 * e.n_channels ∧
    (e.blocks.getD i default).out_channels =
      (1 :: e.c_mults).getD (i + 1) 1 * e.n_channels ∧
    (e.blocks.getD i default).stride = e.strides.getD i 1) ∧
  e.conv_out.in_channels = (1 :: e.c_mults).getD e.c_mults.length 1 * e.n_channels ∧
  e.conv_out.out_channels = e.latent_dim ∧
  e.conv_out.kernel_size = 3 ∧ e.conv_out.stride = 1 ∧ e.conv_out.dilation = 1

instance (e : SoundStreamXLEncoder) : Decidable e.Wf := by
  unfold SoundStreamXLEncoder.Wf
  infer_instance

/-- `SoundStreamXLEncoder.forward` (src lines 270-271): input projection,
ELU, the block cascade (each block followed by ELU), output projection. -/
def SoundStreamXLEncoder.forward (phi : ℚ → ℚ) (e : SoundStreamXLEncoder)
    (x : Tensor1d) : Tensor1d :=
  e.conv_out.forward
    (e.blocks.foldl (fun acc b => eluMap phi (b.forward phi acc))
      (eluMap phi (e.conv_in.forward x)))

/-- Parameters of `DecoderBlock` (src lines 80-101): a causal transposed
convolution of kernel `2*stride` at the given stride, then (after ELU) three
channel-preserving residual units at dilations 1, 3, 9 interleaved with ELU. -/
structure DecoderBlock where
  in_channels : ℕ
  out_channels : ℕ
  stride : ℕ
  up : CausalConvTranspose1d
  ru1 : ResidualUnit
  ru2 : ResidualUnit
  ru3 : ResidualUnit

instance : Inhabited DecoderBlock :=
  ⟨⟨0, 0, 0, default, default, default, default⟩⟩

/-- Constructor facts of `DecoderBlock` (src lines 81-98); the transposed
convolution carries PyTorch's defaults `padding=0`, `output_padding=0`,
`dilation=1`, `padding_mode="zeros"`, and a positive stride. -/
def DecoderBlock.Wf (b : DecoderBlock) : Prop :=
  b.up.in_channels = b.in_channels ∧ b.up.out_channels = b.out_channels ∧
  b.up.kernel_size = 2 * b.stride ∧ b.up.stride = b.stride ∧
  b.up.padding = 0 ∧ b.up.output_padding = 0 ∧ b.up.dilation = 1 ∧
  b.up.padding_mode = "zeros" ∧ 1 ≤ b.stride ∧
  b.ru1.Wf ∧ b.ru1.in_channels = b.out_channels ∧
  b.ru1.out_channels = b.out_channels ∧ b.ru1.dilation = 1 ∧
  b.ru2.Wf ∧ b.ru2.in_channels = b.out_channels ∧
  b.ru2.out_channels = b.out_channels ∧ b.ru2.dilation = 3 ∧
  b.ru3.Wf ∧ b.ru3.in_channels = b.out_channels ∧
  b.ru3.out_channels = b.out_channels ∧ b.ru3.dilation = 9

instance (b : DecoderBlock) : Decidable b.Wf := by
  unfold DecoderBlock.Wf
  infer_instance

/-- `DecoderBlock.forward` (src lines 100-101). -/
def DecoderBlock.forward (phi : ℚ → ℚ) (b : DecoderBlock) (x : Tensor1d) :
    Tensor1d :=
  b.ru3.forward phi (eluMap phi (b.ru2.forward phi (eluMap phi
    (b.ru1.forward phi (eluMap phi (b.up.applyT x))))))

/-- The decoder's transposed convolution with kernel `2*stride` upsamples the
time length exactly `stride`-fold: the untrimmed output has length
`(L+1)*stride` and the stored `causal_padding = stride` is trimmed from the
right. -/
theorem timeLen_up (p : CausalConvTranspose1d) (x : Tensor1d)
    (hk : p.kernel_size = 2 * p.stride) (hpad : p.padding = 0)
    (ho : p.output_padding = 0) (hd : p.dilation = 1) (hs : 1 ≤ p.stride)
    (hoc : 0 < p.out_channels) :
    timeLen (p.applyT x) = timeLen x * p.stride := by
  have hcp : p.causal_padding = (p.stride : ℤ) := by
    unfold CausalConvTranspose1d.causal_padding
    rw [hk, ho, hd]
    push_cast
    ring
  have hslice : ∀ ch : Chan,
      (pySliceNegEnd p.causal_padding ch).length = ch.length - p.stride := by
    intro ch
    unfold pySliceNegEnd
    rw [if_pos (by rw [hcp]; exact_mod_cast hs), List.length_take, hcp]
    simp
  have hlen : timeLen (p.applyT x) = timeLen (p.full x) - p.stride := by
    exact timeLen_map_chan _ _ _ hslice
  rw [hlen, timeLen_full _ _ hoc]
  unfold convTransposeLen
  rcases Nat.eq_zero_or_pos (timeLen x) with h0 | h0
  · rw [h0, if_pos rfl]
    simp
  · rw [if_neg (by omega), hk, hpad, ho, hd]
    have h1 : (timeLen x - 1) * p.stride = timeLen x * p.stride - p.stride :=
      Nat.sub_one_mul _ _
    have h2 : p.stride ≤ timeLen x * p.stride :=
      Nat.le_mul_of_pos_left p.stride (by omega)
    omega

/-- A decoder block upsamples the time length exactly `stride`-fold. -/
theorem DecoderBlock.timeLen_forward_decBlock (phi : ℚ → ℚ) (b : DecoderBlock)
    (x : Tensor1d) (hwf : b.Wf) (hout : 0 < b.out_channels) :
    timeLen (b.forward phi x) = timeLen x * b.stride := by
  obtain ⟨wui, wuo, wuk, wus, wup, wuop, wud, wum, wsp, w1, w1i, w1o, w1d,
    w2, w2i, w2o, w2d, w3, w3i, w3o, w3d⟩ := hwf
  unfold DecoderBlock.forward
  rw [ResidualUnit.timeLen_forward_ru _ _ _ w3.2.2.2.2.1 w3.2.2.2.2.2.2.2.2.2
      (by rw [w3.2.1, w3o]; omega) (by rw [w3.2.2.2.2.2.2.1, w3o]; omega),
    timeLen_eluMap,
    ResidualUnit.timeLen_forward_ru _ _ _ w2.2.2.2.2.1 w2.2.2.2.2.2.2.2.2.2
      (by rw [w2.2.1, w2o]; omega) (by rw [w2.2.2.2.2.2.2.1, w2o]; omega),
    timeLen_eluMap,
    ResidualUnit.timeLen_forward_ru _ _ _ w1.2.2.2.2.1 w1.2.2.2.2.2.2.2.2.2
      (by rw [w1.2.1, w1o]; omega) (by rw [w1.2.2.2.2.2.2.1, w1o]; omega),
    timeLen_eluMap,
    timeLen_up _ _ (by rw [wuk, wus]) wup wuop wud (by rw [wus]; exact wsp)
      (by rw [wuo]; omega), wus]

/-- Time length through the decoder's block cascade: each block multiplies the
length by its stride. -/
theorem timeLen_dec_fold (phi : ℚ → ℚ) (bs : List DecoderBlock) (x : Tensor1d)
    (hwf : ∀ b ∈ bs, b.Wf ∧ 0 < b.out_channels) :
    timeLen (bs.foldl (fun acc b => eluMap phi (b.forward phi acc)) x) =
      timeLen x * (bs.map (fun b => b.stride)).prod := by
  induction bs generalizing x with
  | nil => simp
  | cons b bs ih =>
    obtain ⟨hbwf, hbout⟩ := hwf b (by simp)
    have hstep : timeLen (eluMap phi (b.forward phi x)) = timeLen x * b.stride := by
      rw [timeLen_eluMap, DecoderBlock.timeLen_forward_decBlock _ _ _ hbwf hbout]
    rw [List.foldl_cons, ih _ (fun b hb => hwf b (by simp [hb])), hstep]
    simp only [List.map_cons, List.prod_cons]
    ring

/-- Parameters of `SoundStreamXLDecoder` (src lines 274-297). -/
structure SoundStreamXLDecoder where
  n_channels : ℕ
  latent_dim : ℕ
  n_io_channels : ℕ
  conv_in : CausalConv1d
  blocks : List DecoderBlock
  conv_out : CausalConv1d

/-- Constructor facts of `SoundStreamXLDecoder` (src lines 275-294): the
multipliers `[1,2,4,4,8,16]` and strides `[2,2,4,5,8]` are hardcoded (lines
278-279) and the loop `for i in range(depth-1, 0, -1)` (line 288) emits the
blocks in reverse, so the block channel widths are `[16,8,4,4,2]*n →
[8,4,4,2,1]*n` with strides `[8,5,4,2,2]`. -/
def SoundStreamXLDecoder.Wf (d : SoundStreamXLDecoder) : Prop :=
  d.conv_in.in_channels = d.latent_dim ∧
  d.conv_in.out_channels = 16 * d.n_channels ∧
  d.conv_in.kernel_size = 7 ∧ d.conv_in.stride = 1 ∧ d.conv_in.dilation = 1 ∧
  d.blocks.length = 5 ∧
  (∀ i, i < 5 →
    (d.blocks.getD i default).Wf ∧
    (d.blocks.getD i default).in_channels =
      ([16, 8, 4, 4, 2] : List ℕ).getD i 1 * d.n_channels ∧
    (d.blocks.getD i default).out_channels =
      ([8, 4, 4, 2, 1] : List ℕ).getD i 1 * d.n_channels ∧
    (d.blocks.getD i default).stride = ([8, 5, 4, 2, 2] : List ℕ).getD i 1) ∧
  d.conv_out.in_channels = 1 * d.n_channels ∧
  d.conv_out.out_channels = d.n_io_channels ∧
  d.conv_out.kernel_size = 7 ∧ d.conv_out.stride = 1 ∧ d.conv_out.dilation = 1

instance (d : SoundStreamXLDecoder) : Decidable d.Wf := by
  unfold SoundStreamXLDecoder.Wf
  infer_instance

/-- `SoundStreamXLDecoder.forward` (src lines 296-297). -/
def SoundStreamXLDecoder.forward (phi : ℚ → ℚ) (d : SoundStreamXLDecoder)
    (x : Tensor1d) : Tensor1d :=
  d.conv_out.forward
    (d.blocks.foldl (fun acc b => eluMap phi (b.forward phi acc))
      (eluMap phi (d.conv_in.forward x)))

/-- Entries of the prepended default channel-multiplier list are positive. -/
theorem default_c_mults_getD_pos (i : ℕ) :
    0 < (1 :: SoundStreamXLEncoder.default_c_mults).getD i 1 := by
  rcases i with _ | _ | _ | _ | _ | _ | n
  · decide
  · decide
  · decide
  · decide
  · decide
  · decide
  · rw [List.getD_eq_getElem?_getD,
      List.getElem?_eq_none (by simp [SoundStreamXLEncoder.default_c_mults])]
    decide

/-- Entries of the decoder's block output-multiplier list are positive. -/
theorem dec_out_mults_getD_pos (i : ℕ) :
    0 < (([8, 4, 4, 2, 1] : List ℕ)).getD i 1 := by
  rcases i with _ | _ | _ | _ | _ | n
  · decide
  · decide
  · decide
  · decide
  · decide
  · rw [List.getD_eq_getElem?_getD, List.getElem?_eq_none (by simp)]
    decide

/-- Time length of the default-configuration encoder output: an input length
divisible by the stride product comes out divided by it. -/
theorem SoundStreamXLEncoder.timeLen_forward_encoder (phi : ℚ → ℚ)
    (e : SoundStreamXLEncoder) (x : Tensor1d) (hwf : e.Wf)
    (hstr : e.strides = SoundStreamXLEncoder.default_strides)
    (hcm : e.c_mults = SoundStreamXLEncoder.default_c_mults)
    (hn : 0 < e.n_channels) (hl : 0 < e.latent_dim)
    (hdiv : SoundStreamXLEncoder.default_strides.prod ∣ timeLen x) :
    timeLen (e.forward phi x) =
      timeLen x / SoundStreamXLEncoder.default_strides.prod := by
  obtain ⟨hci, hco, hck, hcs, hcd, hbl, hsl, hblocks, hoi, hoo, hok, hos, hod⟩ :=
    hwf
  have hx : SoundStreamXLEncoder.default_strides.prod *
      (timeLen x / SoundStreamXLEncoder.default_strides.prod) = timeLen x :=
    Nat.mul_div_cancel' hdiv
  have hmapstr : e.blocks.map (fun b => b.stride) = e.strides := by
    refine map_eq_of_getD _ _ _ 1 (by omega) ?_
    intro i hi
    exact (hblocks i hi).2.2.2
  unfold SoundStreamXLEncoder.forward
  rw [CausalConv1d.timeLen_forward_conv _ _ (by rw [hoo]; omega),
    CausalConv1d.outLen_stride_one _ hos]
  refine timeLen_enc_fold phi _ _ _ ?_ ?_
  · rw [timeLen_eluMap, CausalConv1d.timeLen_forward_conv _ _ (by rw [hco]; omega),
      CausalConv1d.outLen_stride_one _ hcs, hmapstr, hstr]
    exact hx.symm
  · intro b hb
    obtain ⟨i, hilt, heq⟩ := List.mem_iff_getElem.1 hb
    have hfacts := hblocks i hilt
    rw [List.getD_eq_getElem _ _ hilt, heq] at hfacts
    refine ⟨hfacts.1, ?_, ?_⟩
    · rw [hfacts.2.1, hcm]
      exact Nat.mul_pos (default_c_mults_getD_pos i) hn
    · rw [hfacts.2.2.1, hcm]
      exact Nat.mul_pos (default_c_mults_getD_pos (i + 1)) hn

/-- Time length of the decoder output: exactly 640 times the latent length
(the hardcoded strides `[2,2,4,5,8]` applied in reverse). -/
theorem SoundStreamXLDecoder.timeLen_forward_decoder (phi : ℚ → ℚ)
    (d : SoundStreamXLDecoder) (x : Tensor1d) (hwf : d.Wf)
    (hn : 0 < d.n_channels) (hio : 0 < d.n_io_channels) :
    timeLen (d.forward phi x) = timeLen x * 640 := by
  obtain ⟨hci, hco, hck, hcs, hcd, hbl, hblocks, hoi, hoo, hok, hos, hod⟩ := hwf
  have hmapstr : d.blocks.map (fun b => b.stride) = [8, 5, 4, 2, 2] := by
    refine map_eq_of_getD _ _ _ 1 (by rw [hbl]; rfl) ?_
    intro i hi
    exact (hblocks i (by omega)).2.2.2
  unfold SoundStreamXLDecoder.forward
  rw [CausalConv1d.timeLen_forward_conv _ _ (by rw [hoo]; omega),
    CausalConv1d.outLen_stride_one _ hos,
    timeLen_dec_fold phi _ _ ?_, hmapstr, timeLen_eluMap,
    CausalConv1d.timeLen_forward_conv _ _ (by rw [hco]; omega),
    CausalConv1d.outLen_stride_one _ hcs]
  · norm_num
  · intro b hb
    obtain ⟨i, hilt, heq⟩ := List.mem_iff_getElem.1 hb
    have hfacts := hblocks i (by omega)
    rw [List.getD_eq_getElem _ _ hilt, heq] at hfacts
    refine ⟨hfacts.1, ?_⟩
    rw [hfacts.2.2.1]
    exact Nat.mul_pos (dec_out_mults_getD_pos i) hn

/-- C1 counterexample: the product of the default encoder strides
`[2,2,4,5,8]` is 640, not 3200. -/
theorem C1_counterexample : SoundStreamXLEncoder.default_strides.prod ≠ 3200 := by
  decide

/-- C1 amended: for the default encoder stride list `[2,2,4,5,8]` the total
stride `R` — the product of all encoder block strides, which equals the ratio
between input sample count and latent frame count
(`frames = samples / total_stride`) — equals 640. -/
theorem C1_total_stride (phi : ℚ → ℚ) (e : SoundStreamXLEncoder)
    (x : Tensor1d) (hwf : e.Wf)
    (hstr : e.strides = SoundStreamXLEncoder.default_strides)
    (hcm : e.c_mults = SoundStreamXLEncoder.default_c_mults)
    (hn : 0 < e.n_channels) (hl : 0 < e.latent_dim)
    (hdiv : SoundStreamXLEncoder.default_strides.prod ∣ timeLen x) :
    SoundStreamXLEncoder.default_strides.prod = 640 ∧
    timeLen (e.forward phi x) =
      timeLen x / SoundStreamXLEncoder.default_strides.prod :=
  ⟨by decide, SoundStreamXLEncoder.timeLen_forward_encoder phi e x hwf hstr hcm hn hl hdiv⟩

/-- C2: for every input of time length divisible by the stride product `R`,
the default-configuration encoder outputs exactly `T / R` frames, and the
decoder — applying the same strides in reverse order — maps that output back
to time length exactly `T`. -/
theorem C2_encode_decode_shape (phi psi : ℚ → ℚ) (e : SoundStreamXLEncoder)
    (d : SoundStreamXLDecoder) (x : Tensor1d) (hew : e.Wf) (hdw : d.Wf)
    (hstr : e.strides = SoundStreamXLEncoder.default_strides)
    (hcm : e.c_mults = SoundStreamXLEncoder.default_c_mults)
    (hn : 0 < e.n_channels) (hl : 0 < e.latent_dim)
    (hdn : 0 < d.n_channels) (hdio : 0 < d.n_io_channels)
    (hdiv : SoundStreamXLEncoder.default_strides.prod ∣ timeLen x) :
    timeLen (e.forward phi x) =
      timeLen x / SoundStreamXLEncoder.default_strides.prod ∧
    timeLen (d.forward psi (e.forward phi x)) = timeLen x := by
  have henc := SoundStreamXLEncoder.timeLen_forward_encoder phi e x hew hstr hcm hn hl hdiv
  refine ⟨henc, ?_⟩
  rw [SoundStreamXLDecoder.timeLen_forward_decoder psi d _ hdw hdn hdio, henc]
  have hp : SoundStreamXLEncoder.default_strides.prod = 640 := by decide
  rw [← hp]
  exact Nat.div_mul_cancel hdiv

/-- Concrete residual unit builder for the encoder/decoder witnesses. -/
def mkRU (c dil : ℕ) : ResidualUnit :=
  ⟨c, c, dil, ⟨c, c, 7, 1, dil, [], []⟩, ⟨c, c, 1, 1, 1, [], []⟩⟩

/-- Concrete encoder block builder for the witnesses. -/
def mkEncBlock (cin cout s : ℕ) : EncoderBlock :=
  ⟨cin, cout, s, mkRU cin 1, mkRU cin 3, mkRU cin 9,
    ⟨cin, cout, 2 * s, s, 1, [], []⟩⟩

/-- Concrete decoder block builder for the witnesses. -/
def mkDecBlock (cin cout s : ℕ) : DecoderBlock :=
  ⟨cin, cout, s, ⟨cin, cout, 2 * s, s, 0, 0, 1, "zeros", [], []⟩,
    mkRU cout 1, mkRU cout 3, mkRU cout 9⟩

/-- A concrete default-configuration encoder (unit feature width, unit latent
dimension, zero-parameter convolutions — the shape claims are independent of
the learned parameters). -/
def enc0 : SoundStreamXLEncoder :=
  ⟨1, 1, 1, [2, 2, 4, 5, 8], [2, 4, 4, 8, 16], ⟨1, 1, 7, 1, 1, [], []⟩,
    [mkEncBlock 1 2 2, mkEncBlock 2 4 2, mkEncBlock 4 4 4, mkEncBlock 4 8 5,
      mkEncBlock 8 16 8], ⟨16, 1, 3, 1, 1, [], []⟩⟩

/-- A concrete decoder matching `enc0`. -/
def dec0 : SoundStreamXLDecoder :=
  ⟨1, 1, 1, ⟨1, 16, 7, 1, 1, [], []⟩,
    [mkDecBlock 16 8 8, mkDecBlock 8 4 5, mkDecBlock 4 4 4, mkDecBlock 4 2 2,
      mkDecBlock 2 1 2], ⟨1, 1, 7, 1, 1, [], []⟩⟩

/-- A one-channel input of 640 samples (one full stride product). -/
def x640 : Tensor1d := [List.replicate 640 0]

/-- C1 witness: the concrete encoder on a 640-sample input. -/
theorem C1_total_stride_witness :
    enc0.Wf ∧ SoundStreamXLEncoder.default_strides.prod ∣ timeLen x640 ∧
    (SoundStreamXLEncoder.default_strides.prod = 640 ∧
     timeLen (SoundStreamXLEncoder.forward id enc0 x640) =
       timeLen x640 / SoundStreamXLEncoder.default_strides.prod) :=
  ⟨by decide, by decide,
    C1_total_stride id enc0 x640 (by decide) (by decide) (by decide)
      (by decide) (by decide) (by decide)⟩

/-- C2 witness: the concrete encoder/decoder pair on a 640-sample input. -/
theorem C2_encode_decode_shape_witness :
    enc0.Wf ∧ dec0.Wf ∧ SoundStreamXLEncoder.default_strides.prod ∣ timeLen x640 ∧
    (timeLen (SoundStreamXLEncoder.forward id enc0 x640) =
       timeLen x640 / SoundStreamXLEncoder.default_strides.prod ∧
     timeLen (SoundStreamXLDecoder.forward id dec0
       (SoundStreamXLEncoder.forward id enc0 x640)) = timeLen x640) :=
  ⟨by decide, by decide, by decide,
    C2_encode_decode_shape id id enc0 dec0 x640 (by decide) (by decide)
      (by decide) (by decide) (by decide) (by decide) (by decide) (by decide)
      (by decide)⟩

/-! Causality of the encoder (claim C3): agreement of two inputs on a time
prefix propagates to agreement of the outputs on the corresponding frame
prefix, layer by layer. -/

/-- Reading past the end of a list yields the default. -/
theorem getD_len_le {α : Type} (l : List α) (n : ℕ) (d : α) (h : l.length ≤ n) :
    l.getD n d = d := by
  rw [List.getD_eq_getElem?_getD, List.getElem?_eq_none h]
  rfl

/-- Value agreement of two tensors at every channel and every time index up
to `t`. -/
def ValAgree (t : ℕ) (x y : Tensor1d) : Prop :=
  ∀ c u, u ≤ t → val x c u = val y c u

/-- Bounded (decidable) form of `ValAgree`: out-of-range channels read the
default 0 on both sides, so bounding the channel index loses nothing. -/
def AgreeUpTo (t : ℕ) (x y : Tensor1d) : Prop :=
  ∀ c, c < max x.length y.length → ∀ u, u ≤ t → val x c u = val y c u

instance (t : ℕ) (x y : Tensor1d) : Decidable (AgreeUpTo t x y) := by
  unfold AgreeUpTo
  infer_instance

/-- The bounded agreement implies the unbounded one. -/
theorem agreeUpTo_valAgree (t : ℕ) (x y : Tensor1d) (h : AgreeUpTo t x y) :
    ValAgree t x y := by
  intro c u hu
  by_cases hc : c < max x.length y.length
  · exact h c hc u hu
  · unfold val
    rw [getD_len_le x c [] (by omega), getD_len_le y c [] (by omega)]

/-- Same shape gives equal time lengths. -/
theorem sameShape_timeLen {x y : Tensor1d} (h : sameShape x y) :
    timeLen x = timeLen y := by
  have hx : timeLen x = (x.map List.length).headD 0 := by
    cases x <;> simp [timeLen]
  have hy : timeLen y = (y.map List.length).headD 0 := by
    cases y <;> simp [timeLen]
  rw [hx, hy, h]

/-- Same shape gives equal channel counts. -/
theorem sameShape_length {x y : Tensor1d} (h : sameShape x y) :
    x.length = y.length := by
  have := congrArg List.length h
  simpa using this

/-- The per-channel length read through the shape profile. -/
theorem getD_length_map (x : Tensor1d) (c : ℕ) :
    (x.map List.length).getD c 0 = (x.getD c []).length := by
  rw [List.getD_eq_getElem?_getD, List.getD_eq_getElem?_getD, List.getElem?_map]
  cases hx : x[c]? <;> simp

/-- Same shape gives equal channel lengths at every index. -/
theorem sameShape_chanLen {x y : Tensor1d} (h : sameShape x y) (c : ℕ) :
    (x.getD c []).length = (y.getD c []).length := by
  rw [← getD_length_map, ← getD_length_map, h]

/-- getD through a channel-wise map that fixes the empty channel. -/
theorem getD_map_chan (g : Chan → Chan) (hg : g [] = []) (x : Tensor1d)
    (c : ℕ) : (x.map g).getD c [] = g (x.getD c []) := by
  rw [List.getD_eq_getElem?_getD, List.getD_eq_getElem?_getD, List.getElem?_map]
  cases hx : x[c]? <;> simp [hg]

/-- getD through a pointwise map of one channel. -/
theorem getD_map_rat (phi : ℚ → ℚ) (ch : Chan) (u : ℕ) :
    (ch.map phi).getD u 0 = if u < ch.length then phi (ch.getD u 0) else 0 := by
  by_cases hu : u < ch.length
  · rw [if_pos hu, List.getD_eq_getElem?_getD, List.getD_eq_getElem?_getD,
      List.getElem?_map, List.getElem?_eq_getElem hu]
    simp
  · rw [if_neg hu, List.getD_eq_getElem?_getD, List.getElem?_map,
      List.getElem?_eq_none (by omega)]
    simp

/-- getD into a left-zero-padded channel. -/
theorem getD_pad (P : ℕ) (ch : Chan) (j : ℕ) :
    (List.replicate P (0 : ℚ) ++ ch).getD j 0 =
      if j < P then 0 else ch.getD (j - P) 0 := by
  by_cases hj : j < P
  · rw [if_pos hj, List.getD_eq_getElem?_getD,
      List.getElem?_append_left (by simpa using hj)]
    simp [List.getElem?_replicate, hj]
  · rw [if_neg hj, List.getD_eq_getElem?_getD,
      List.getElem?_append_right (by simpa using hj), List.getD_eq_getElem?_getD]
    simp

/-- getD of a channel-wise zipWith. -/
theorem getD_zipWith_chan (g : Chan → Chan → Chan) (x y : Tensor1d) (c : ℕ) :
    (List.zipWith g x y).getD c [] =
      if c < x.length ∧ c < y.length then g (x.getD c []) (y.getD c []) else [] := by
  induction x generalizing y c with
  | nil => simp
  | cons hx tx ih =>
    cases y with
    | nil => simp
    | cons hy ty =>
      cases c with
      | zero => simp
      | succ v =>
        simpa [Nat.succ_lt_succ_iff] using ih ty v

/-- getD of a pointwise sum of two channels. -/
theorem getD_zipWith_add (a b : Chan) (u : ℕ) :
    (List.zipWith (· + ·) a b).getD u 0 =
      if u < a.length ∧ u < b.length then a.getD u 0 + b.getD u 0 else 0 := by
  induction a generalizing b u with
  | nil => simp
  | cons ha ta ih =>
    cases b with
    | nil => simp
    | cons hb tb =>
      cases u with
      | zero => simp
      | succ v =>
        simpa [Nat.succ_lt_succ_iff] using ih tb v

/-- Values of a causal convolution output. -/
theorem CausalConv1d.val_forward (p : CausalConv1d) (x : Tensor1d) (c f : ℕ) :
    val (p.forward x) c f =
      if c < p.out_channels ∧ f < p.outLen (timeLen x) then p.frame x c f
      else 0 := by
  unfold val CausalConv1d.forward
  rw [getD_range_map]
  by_cases hc : c < p.out_channels
  · rw [if_pos hc, getD_range_map]
    by_cases hf : f < p.outLen (timeLen x)
    · rw [if_pos hf, if_pos ⟨hc, hf⟩]
    · rw [if_neg hf, if_neg (fun h => hf h.2)]
  · rw [if_neg hc, if_neg (fun h => hc h.1)]
    exact getD_len_le _ _ _ (by simp)

/-- Values of an ELU output. -/
theorem val_eluMap (phi : ℚ → ℚ) (x : Tensor1d) (c u : ℕ) :
    val (eluMap phi x) c u =
      if c < x.length ∧ u < (x.getD c []).length then phi (val x c u) else 0 := by
  unfold val eluMap
  rw [getD_map_chan (List.map phi) (by simp), getD_map_rat]
  by_cases hc : c < x.length
  · simp [hc]
  · rw [List.getD_eq_getElem?_getD, List.getElem?_eq_none (by omega)]
    simp [hc]

/-- Values of a residual addition. -/
theorem val_addT (x y : Tensor1d) (c u : ℕ) :
    val (addT x y) c u =
      if c < x.length ∧ c < y.length then
        (if u < (x.getD c []).length ∧ u < (y.getD c []).length then
          val x c u + val y c u
        else 0)
      else 0 := by
  unfold val addT
  rw [getD_zipWith_chan]
  by_cases h1 : c < x.length ∧ c < y.length
  · rw [if_pos h1, if_pos h1, getD_zipWith_add]
  · rw [if_neg h1, if_neg h1]
    exact getD_len_le _ _ _ (by simp)

/-- Agreement on the input prefix up to `f*stride` makes the convolution
frames at `f` agree: the padded read at `f*stride + i*dilation` reaches back
at most to input index `f*stride`. -/
theorem CausalConv1d.frame_congr (p : CausalConv1d) (x y : Tensor1d) (t c f : ℕ)
    (hagree : ValAgree t x y) (hf : f * p.stride ≤ t) :
    p.frame x c f = p.frame y c f := by
  unfold CausalConv1d.frame
  congr 1
  apply Finset.sum_congr rfl
  intro ic _
  apply Finset.sum_congr rfl
  intro i hi
  congr 1
  unfold CausalConv1d.causal_padding
  rw [getD_pad, getD_pad]
  have hiP : i * p.dilation ≤ p.dilation * (p.kernel_size - 1) := by
    have h1 : i < p.kernel_size := Finset.mem_range.1 hi
    have h2 : i * p.dilation ≤ (p.kernel_size - 1) * p.dilation :=
      Nat.mul_le_mul_right _ (by omega)
    have h3 : (p.kernel_size - 1) * p.dilation =
        p.dilation * (p.kernel_size - 1) := Nat.mul_comm _ _
    omega
  split_ifs with hj
  · rfl
  · exact hagree ic _ (by omega)

/-- A map `F` is `s`-causal when, for same-shaped inputs agreeing up to time
`t`, the outputs have the same shape and agree at every frame `f` with
`f * s ≤ t`. -/
def CausalMap (s : ℕ) (F : Tensor1d → Tensor1d) : Prop :=
  ∀ x y t, sameShape x y → ValAgree t x y →
    sameShape (F x) (F y) ∧ ∀ c f, f * s ≤ t → val (F x) c f = val (F y) c f

/-- A causality bound transports along equal strides. -/
theorem causalMap_congr {s s' : ℕ} {F : Tensor1d → Tensor1d}
    (h : CausalMap s F) (hss : s = s') : CausalMap s' F := hss ▸ h

/-- Each causal convolution is `stride`-causal. -/
theorem causalMap_forward (p : CausalConv1d) : CausalMap p.stride p.forward := by
  intro x y t hsh hagree
  have hT : timeLen x = timeLen y := sameShape_timeLen hsh
  constructor
  · unfold sameShape
    rw [CausalConv1d.shape_forward, CausalConv1d.shape_forward, hT]
  · intro c f hf
    rw [CausalConv1d.val_forward, CausalConv1d.val_forward, hT]
    split_ifs with h
    · exact CausalConv1d.frame_congr p x y t c f hagree hf
    · rfl

/-- The pointwise activation is 1-causal. -/
theorem causalMap_eluMap (phi : ℚ → ℚ) : CausalMap 1 (eluMap phi) := by
  intro x y t hsh hagree
  have hxl := sameShape_length hsh
  constructor
  · unfold sameShape
    rw [shape_eluMap, shape_eluMap]
    exact hsh
  · intro c f hf
    rw [val_eluMap, val_eluMap]
    have hlen := sameShape_chanLen hsh c
    by_cases hc : c < x.length
    · by_cases hu : f < (x.getD c []).length
      · rw [if_pos ⟨hc, hu⟩, if_pos ⟨by omega, by omega⟩,
          hagree c f (by omega)]
      · rw [if_neg (fun h => hu h.2), if_neg (fun h => hu (by omega))]
    · rw [if_neg (fun h => hc h.1), if_neg (fun h => hc (by omega))]

/-- Composition multiplies the causality strides. -/
theorem causalMap_comp {s s' : ℕ} {F G : Tensor1d → Tensor1d} (hs : 1 ≤ s)
    (hF : CausalMap s F) (hG : CausalMap s' G) :
    CausalMap (s' * s) (fun x => G (F x)) := by
  intro x y t hsh hagree
  obtain ⟨hFsh, hFval⟩ := hF x y t hsh hagree
  have hagree2 : ValAgree (t / s) (F x) (F y) := by
    intro c u hu
    refine hFval c u ?_
    rw [Nat.le_div_iff_mul_le (by omega)] at hu
    omega
  obtain ⟨hGsh, hGval⟩ := hG (F x) (F y) (t / s) hFsh hagree2
  refine ⟨hGsh, ?_⟩
  intro c f hf
  refine hGval c f ?_
  rw [Nat.le_div_iff_mul_le (by omega)]
  have h1 : f * s' * s = f * (s' * s) := by ring
  omega

/-- An additive skip around a 1-causal map is 1-causal. -/
theorem causalMap_residual (F : Tensor1d → Tensor1d) (hF : CausalMap 1 F) :
    CausalMap 1 (fun x => addT x (F x)) := by
  intro x y t hsh hagree
  obtain ⟨hFsh, hFval⟩ := hF x y t hsh hagree
  constructor
  · unfold sameShape
    rw [map_length_addT, map_length_addT, hsh, hFsh]
  · intro c f hf
    rw [val_addT, val_addT]
    have hxl := sameShape_length hsh
    have hFl := sameShape_length hFsh
    have hcl := sameShape_chanLen hsh c
    have hFcl := sameShape_chanLen hFsh c
    rw [← hxl, ← hFl, ← hcl, ← hFcl, hagree c f (by omega),
      hFval c f (by omega)]

/-- A residual unit with stride-1 convolutions is 1-causal. -/
theorem causalMap_ru (phi : ℚ → ℚ) (ru : ResidualUnit)
    (h1 : ru.conv1.stride = 1) (h2 : ru.conv2.stride = 1) :
    CausalMap 1 (ru.forward phi) := by
  have hc1 := causalMap_forward ru.conv1
  rw [h1] at hc1
  have hc2 := causalMap_forward ru.conv2
  rw [h2] at hc2
  have he := causalMap_eluMap phi
  have hcomp1 := causalMap_comp (le_refl 1) hc1 he
  have hcomp2 := causalMap_comp (by norm_num) hcomp1 hc2
  have hinner : CausalMap 1
      (fun x => ru.conv2.forward (eluMap phi (ru.conv1.forward x))) :=
    causalMap_congr hcomp2 (by norm_num)
  exact causalMap_residual _ hinner

/-- An encoder block is `stride`-causal. -/
theorem causalMap_encBlock (phi : ℚ → ℚ) (b : EncoderBlock) (hwf : b.Wf) :
    CausalMap b.stride (b.forward phi) := by
  have hcopy := hwf
  obtain ⟨w1, -, -, -, w2, -, -, -, w3, -, -, -, -, -, -, wds, -, wsp⟩ := hcopy
  have h1 := causalMap_ru phi b.ru1 w1.2.2.2.2.1 w1.2.2.2.2.2.2.2.2.2
  have h2 := causalMap_ru phi b.ru2 w2.2.2.2.2.1 w2.2.2.2.2.2.2.2.2.2
  have h3 := causalMap_ru phi b.ru3 w3.2.2.2.2.1 w3.2.2.2.2.2.2.2.2.2
  have he := causalMap_eluMap phi
  have hd := causalMap_forward b.down
  rw [wds] at hd
  have c1 := causalMap_comp (le_refl 1) h1 he
  have c2 := causalMap_comp (by norm_num) c1 h2
  have c3 := causalMap_comp (by norm_num) c2 he
  have c4 := causalMap_comp (by norm_num) c3 h3
  have c5 := causalMap_comp (by norm_num) c4 he
  have c6 := causalMap_comp (by norm_num) c5 hd
  exact causalMap_congr c6 (by ring)

/-- The encoder's block cascade is causal with the product of the block
strides. -/
theorem causalMap_enc_fold (phi : ℚ → ℚ) (bs : List EncoderBlock)
    (hwf : ∀ b ∈ bs, b.Wf) :
    CausalMap ((bs.map (fun b => b.stride)).prod)
      (fun x => bs.foldl (fun acc b => eluMap phi (b.forward phi acc)) x) := by
  induction bs with
  | nil =>
    intro x y t hsh hagree
    exact ⟨hsh, fun c f hf => hagree c f (by simpa using hf)⟩
  | cons b bs ih =>
    have hb := hwf b (by simp)
    have hcopy := hb
    obtain ⟨-, -, -, -, -, -, -, -, -, -, -, -, -, -, -, -, -, wsp⟩ := hcopy
    have hblock := causalMap_encBlock phi b hb
    have he := causalMap_eluMap phi
    have hbe := causalMap_comp wsp hblock he
    have hrest := ih (fun b hb => hwf b (by simp [hb]))
    have hcomp := causalMap_comp (by omega) hbe hrest
    exact causalMap_congr hcomp (by simp [List.prod_cons]; ring)

/-- The full encoder is causal with the product of its stride list. -/
theorem causalMap_encoder (phi : ℚ → ℚ) (e : SoundStreamXLEncoder)
    (hwf : e.Wf) : CausalMap e.strides.prod (e.forward phi) := by
  obtain ⟨hci, hco, hck, hcs, hcd, hbl, hsl, hblocks, hoi, hoo, hok, hos, hod⟩ :=
    hwf
  have hmapstr : e.blocks.map (fun b => b.stride) = e.strides := by
    refine map_eq_of_getD _ _ _ 1 (by omega) ?_
    intro i hi
    exact (hblocks i hi).2.2.2
  have hin := causalMap_forward e.conv_in
  rw [hcs] at hin
  have hout := causalMap_forward e.conv_out
  rw [hos] at hout
  have he := causalMap_eluMap phi
  have hfold := causalMap_enc_fold phi e.blocks ?hbswf
  case hbswf =>
    intro b hb
    obtain ⟨i, hilt, heq⟩ := List.mem_iff_getElem.1 hb
    have hfacts := hblocks i hilt
    rw [List.getD_eq_getElem _ _ hilt, heq] at hfacts
    exact hfacts.1
  rw [hmapstr] at hfold
  have c1 := causalMap_comp (le_refl 1) hin he
  have c2 := causalMap_comp (by norm_num) c1 hfold
  have hp : 1 ≤ e.strides.prod * (1 * 1) := by
    have : 0 < e.strides.prod := by
      rw [← hmapstr]
      refine List.prod_pos ?_
      intro s hsmem
      obtain ⟨b, hbmem, rfl⟩ := List.mem_map.1 hsmem
      obtain ⟨i, hilt, heq⟩ := List.mem_iff_getElem.1 hbmem
      have hfacts := hblocks i hilt
      rw [List.getD_eq_getElem _ _ hilt, heq] at hfacts
      have hcopy := hfacts.1
      obtain ⟨-, -, -, -, -, -, -, -, -, -, -, -, -, -, -, -, -, wsp⟩ := hcopy
      omega
    omega
  have c3 := causalMap_comp hp c2 hout
  exact causalMap_congr c3 (by ring)

/-- C3: causality.  First, each `CausalConv1d` — which left-pads by
`dilation*(kernel_size-1)` and right-pads by nothing — produces output at
time index `t` depending only on input samples at time indices
`≤ t*stride`: same-shaped inputs agreeing up to `t*stride` give equal outputs
at index `t`.  Second, for the whole encoder: two same-shaped inputs that
agree on all samples at time indices `≤ t` (and may differ arbitrarily after
`t`) produce outputs that agree at every frame `f` whose receptive field ends
at or before `t`, i.e. `f * R ≤ t` with `R` the product of the stride list. -/
theorem C3_encoder_causality (phi : ℚ → ℚ) :
    (∀ (p : CausalConv1d) (x y : Tensor1d) (t c : ℕ),
      sameShape x y → AgreeUpTo (t * p.stride) x y →
      val (p.forward x) c t = val (p.forward y) c t) ∧
    (∀ (e : SoundStreamXLEncoder) (x y : Tensor1d) (t : ℕ), e.Wf →
      sameShape x y → AgreeUpTo t x y →
      ∀ c f, f * e.strides.prod ≤ t →
        val ((e.forward phi) x) c f = val ((e.forward phi) y) c f) := by
  constructor
  · intro p x y t c hsh hagree
    exact ((causalMap_forward p) x y (t * p.stride) hsh
      (agreeUpTo_valAgree _ _ _ hagree)).2 c t (le_refl _)
  · intro e x y t hwf hsh hagree c f hf
    exact ((causalMap_encoder phi e hwf) x y t hsh
      (agreeUpTo_valAgree _ _ _ hagree)).2 c f hf

/-- Concrete convolution for the C3 witness: kernel 2, stride 2. -/
def convC3 : CausalConv1d := ⟨1, 1, 2, 2, 1, [[[1, 1]]], [0]⟩

/-- Concrete single-block unit-stride encoder for the C3 witness. -/
def encC3 : SoundStreamXLEncoder :=
  ⟨1, 1, 1, [1], [1], ⟨1, 1, 7, 1, 1, [], []⟩, [mkEncBlock 1 1 1],
    ⟨1, 1, 3, 1, 1, [], []⟩⟩

/-- C3 witness: two inputs differing only after the agreed prefix, for both
the single convolution and the small encoder. -/
theorem C3_encoder_causality_witness :
    (sameShape [[0, 0, 0, 0]] [[0, 0, 0, 9]] ∧
     AgreeUpTo (1 * convC3.stride) [[0, 0, 0, 0]] [[0, 0, 0, 9]] ∧
     val (convC3.forward [[0, 0, 0, 0]]) 0 1 =
       val (convC3.forward [[0, 0, 0, 9]]) 0 1) ∧
    (encC3.Wf ∧ sameShape [[0, 0, 0]] [[0, 0, 5]] ∧
     AgreeUpTo 1 [[0, 0, 0]] [[0, 0, 5]] ∧ 1 * encC3.strides.prod ≤ 1 ∧
     val (SoundStreamXLEncoder.forward id encC3 [[0, 0, 0]]) 0 1 =
       val (SoundStreamXLEncoder.forward id encC3 [[0, 0, 5]]) 0 1) :=
  ⟨⟨by decide, by decide,
      (C3_encoder_causality id).1 convC3 [[0, 0, 0, 0]] [[0, 0, 0, 9]] 1 0
        (by decide) (by decide)⟩,
    ⟨by decide, by decide, by decide, by decide,
      (C3_encoder_causality id).2 encC3 [[0, 0, 0]] [[0, 0, 5]] 1 (by decide)
        (by decide) (by decide) 0 1 (by decide)⟩⟩

end AudioDiffusion
